import Mathlib

/-!
Shallow embedding of the pairwise LLM-as-judge evaluation harness of this
repository: the evaluation core of `evaluator.py` (class `LLMEvaluator`) and
the batch driver `batch_evaluation.py`.  Python dictionaries are modelled as
insertion-ordered association lists, Python floats as rationals, and raised
exceptions as `Except` values.  Every definition is translated from the
source; characterisation functions used in theorem statements (such as
`pairScores`) are related to the translated code by proved lemmas.
-/

namespace EmoEval

/-- Python's pervasive averaging idiom `sum(scores) / len(scores) if scores
else 0` (used in `aggregate_results` and `aggregate_model_scores`). -/
def meanQ (l : List ℚ) : ℚ :=
  if l = [] then 0 else l.sum / l.length

/-- Association-list lookup, modelling a Python `dict` read (first entry
whose key matches; the dictionaries built below always have distinct keys). -/
def getA : List (String × α) → String → Option α
  | [], _ => none
  | e :: s, k => if e.1 = k then some e.2 else getA s k

/-- Association-list in-place value update, modelling mutation of
`dict[k]`; entries with other keys are untouched. -/
def upd : List (String × α) → String → (α → α) → List (String × α)
  | [], _, _ => []
  | e :: s, k, f => (if e.1 = k then (e.1, f e.2) else e) :: upd s k f

/-- Keys of an association list, in insertion order. -/
def keys (s : List (String × α)) : List String :=
  s.map (·.1)

/-! ## Pair enumeration

`run_batch_evaluation` (batch_evaluation.py line 154) builds
`all_pairs = list(combinations(models, 2))`. -/

/-- Translation of `itertools.combinations(l, 2)`: every pair of elements at
positions `i < j`, materialised in position order. -/
def combinations2 : List α → List (α × α)
  | [] => []
  | x :: xs => (xs.map (fun y => (x, y))) ++ combinations2 xs

/-- Two ordered pairs denote the same unordered pair. -/
def sameUnordered (p q : α × α) : Prop :=
  p = q ∨ (p.1 = q.2 ∧ p.2 = q.1)

instance [DecidableEq α] :
    DecidablePred (fun pq : (α × α) × (α × α) => sameUnordered pq.1 pq.2) :=
  fun _ => by unfold sameUnordered; infer_instance

/-! ## Response parsing (`LLMEvaluator._parse_llm_response`) -/

/-- Fields of a decoded verdict object that the aggregation reads via
`llm_response.get("version_a_score")` and `.get("version_b_score")`: either
key can be missing from the decoded object, hence `Option`. -/
structure Verdict where
  version_a_score : Option ℚ
  version_b_score : Option ℚ
  deriving DecidableEq

/-- Result of `_parse_llm_response`: either the decoded object, or the
sentinel dictionary carrying the raw text and the parse-failure flag. -/
inductive ParsedResponse where
  | parsed (v : Verdict)
  | failed (raw_response : String)
  deriving DecidableEq

/-- The parse-failure flag `parsing_error`, set exactly on the sentinel. -/
def parsing_error : ParsedResponse → Bool
  | .parsed _ => false
  | .failed _ => true

/-- Reads `llm_response.get("version_a_score")`; the sentinel carries no
score keys, so `get` yields `None` on it. -/
def getScoreA : ParsedResponse → Option ℚ
  | .parsed v => v.version_a_score
  | .failed _ => none

/-- Reads `llm_response.get("version_b_score")`. -/
def getScoreB : ParsedResponse → Option ℚ
  | .parsed v => v.version_b_score
  | .failed _ => none

/-- The extraction step of `_parse_llm_response`: `re.search` with a DOTALL
pattern of an opening brace, then any characters, then a closing brace.  It
matches iff some opening brace is followed by a closing brace; the greedy
match runs from the first such opening brace — which is the first opening
brace outright, provided the last closing brace of the text lies beyond
it — to the last closing brace. -/
def extract_json (t : List Char) : Option (List Char) :=
  match t.findIdx? (· == '{'), t.reverse.findIdx? (· == '}') with
  | some i, some r =>
    let j := t.length - 1 - r
    if i < j then some ((t.drop i).take (j - i + 1)) else none
  | _, _ => none

/-- Translation of `_parse_llm_response`: locate a brace-delimited span and
decode it with `json.loads`.  The standard-library JSON decoder is an
external collaborator, abstracted as the `decode` argument (`none` models a
raised `JSONDecodeError`); on either failure the sentinel dictionary with
the raw text is returned. -/
def parse_llm_response (decode : List Char → Option Verdict)
    (response_text : String) : ParsedResponse :=
  match extract_json response_text.data with
  | some s =>
    match decode s with
    | some v => .parsed v
    | none => .failed response_text
  | none => .failed response_text

/-! ## Per-pair aggregation (`LLMEvaluator.aggregate_results`) -/

/-- One entry of `all_results` in `run_evaluation`, restricted to the fields
`aggregate_results` consumes (the other log fields — ids, participants,
timestamps, sources — influence no score). -/
structure Log where
  dimension : String
  llm_response : ParsedResponse
  deriving DecidableEq

/-- Accumulator entry of `aggregate_results` for one dimension: the lists
`scores_a` and `scores_b`. -/
structure SideScores where
  scores_a : List ℚ
  scores_b : List ℚ
  deriving DecidableEq

/-- One loop iteration of `aggregate_results` (evaluator.py lines 522-536):
register the dimension key if new, then append each sub-score that is not
`None` to the matching side. -/
def addResult (st : List (String × SideScores)) (r : Log) :
    List (String × SideScores) :=
  let st1 := if (getA st r.dimension).isSome then st
             else st ++ [(r.dimension, ⟨[], []⟩)]
  let st2 :=
    match getScoreA r.llm_response with
    | some x => upd st1 r.dimension (fun s => ⟨s.scores_a ++ [x], s.scores_b⟩)
    | none => st1
  match getScoreB r.llm_response with
  | some x => upd st2 r.dimension (fun s => ⟨s.scores_a, s.scores_b ++ [x]⟩)
  | none => st2

/-- The `dimension_results` dictionary after the grouping loop of
`aggregate_results`. -/
def dimension_results (all_results : List Log) : List (String × SideScores) :=
  all_results.foldl addResult []

/-- Per-dimension summary emitted by `aggregate_results`:
`path_1_average`, `path_2_average` (each `0` on an empty list) and
`num_evaluations = len(scores_a)`. -/
structure DimAgg where
  path_1_average : ℚ
  path_2_average : ℚ
  num_evaluations : ℕ
  deriving DecidableEq

/-- Translation of `LLMEvaluator.aggregate_results` (the `dimensions`
mapping of `aggregated_results.json`). -/
def aggregate_results (all_results : List Log) : List (String × DimAgg) :=
  (dimension_results all_results).map
    (fun e => (e.1, ⟨meanQ e.2.scores_a, meanQ e.2.scores_b, e.2.scores_a.length⟩))

/-- Characterisation of the `scores_a` list accumulated for dimension `d`:
the present `version_a_score` of every cell logged for `d`, in log order. -/
def scoresA (rs : List Log) (d : String) : List ℚ :=
  rs.filterMap (fun r => if r.dimension = d then getScoreA r.llm_response else none)

/-- Characterisation of the accumulated `scores_b` list. -/
def scoresB (rs : List Log) (d : String) : List ℚ :=
  rs.filterMap (fun r => if r.dimension = d then getScoreB r.llm_response else none)

/-! ## The evaluation loop (`LLMEvaluator.run_evaluation`) -/

/-- Step 1 of `run_evaluation` (evaluator.py lines 352-363):
`num_pairs = min(len(conversations_a), len(conversations_b))`; when
`max_conversations` is given, a clamping warning is printed if it exceeds
that availability, and then `num_pairs = min(num_pairs, max_conversations)`.
Returns the effective count together with whether the warning fired. -/
def effective_num_pairs (lenA lenB : ℕ) (max_conversations : Option ℕ) :
    ℕ × Bool :=
  let num_pairs := min lenA lenB
  match max_conversations with
  | none => (num_pairs, false)
  | some m => (min num_pairs m, decide (m > num_pairs))

/-- Inner dimension loop of step 4 of `run_evaluation` (evaluator.py lines
406-458) for conversation index `i`: an unknown dimension is skipped with a
warning; otherwise `_evaluate_dimension` makes one judge call (`judge i d`;
`Except.error` models a raised transport error) and the cell log is appended
to the accumulated `all_results`.  The loop body contains no `try/except`,
so an error propagates and aborts the whole pair run. -/
def eval_dim_cells (i : ℕ) (dims : List String) (templates : List String)
    (judge : ℕ → String → Except String ParsedResponse) (acc : List Log) :
    Except String (List Log) :=
  match dims with
  | [] => .ok acc
  | d :: rest =>
    if templates.contains d then
      match judge i d with
      | .error e => .error e
      | .ok resp => eval_dim_cells i rest templates judge (acc ++ [⟨d, resp⟩])
    else eval_dim_cells i rest templates judge acc

/-- Outer conversation-index loop of step 4 of `run_evaluation`. -/
def eval_cells (idxs : List ℕ) (dims templates : List String)
    (judge : ℕ → String → Except String ParsedResponse) (acc : List Log) :
    Except String (List Log) :=
  match idxs with
  | [] => .ok acc
  | i :: rest =>
    match eval_dim_cells i dims templates judge acc with
    | .error e => .error e
    | .ok acc2 => eval_cells rest dims templates judge acc2

/-- The whole evaluation loop of `run_evaluation`, over
`range(num_pairs) × dimensions`. -/
def run_evaluation_cells (num_pairs : ℕ) (dims templates : List String)
    (judge : ℕ → String → Except String ParsedResponse) :
    Except String (List Log) :=
  eval_cells (List.range num_pairs) dims templates judge []

/-! ## Cross-pair aggregation (`aggregate_model_scores`) -/

/-- One entry of `pair_results` in `run_batch_evaluation`: the two model
labels and the `dimensions` block read back from the pair session's
`aggregated_results.json`. -/
structure PairResult where
  model1 : String
  model2 : String
  results : List (String × DimAgg)
  deriving DecidableEq

/-- Accumulator entry of `aggregate_model_scores` for one model label: the
per-dimension score lists and the comparison count (the `category`, `name`
and `path` fields are carried along unchanged and influence no score, so
they are not modelled). -/
structure MData where
  dimensions : List (String × List ℚ)
  num_comparisons : ℕ
  deriving DecidableEq

/-- Initialisation loop of `aggregate_model_scores` (batch_evaluation.py
lines 357-366): one entry per model label, with an empty score dictionary
and a zero comparison count. -/
def initState (models : List String) : List (String × MData) :=
  models.map (fun m => (m, ⟨[], 0⟩))

/-- Python's `if dimension not in dict: dict[dimension] = []` followed by
`dict[dimension].append(x)`. -/
def dimAppend (ds : List (String × List ℚ)) (d : String) (x : ℚ) :
    List (String × List ℚ) :=
  let ds1 := if (getA ds d).isSome then ds else ds ++ [(d, [])]
  upd ds1 d (fun l => l ++ [x])

/-- One side of the collection loop of `aggregate_model_scores`
(batch_evaluation.py lines 374-386): append the side-score `f data` of every
dimension of the pair's results to `model_scores[lbl]`, then increment
`num_comparisons`. -/
def addPairScores (st : List (String × MData)) (lbl : String)
    (results : List (String × DimAgg)) (f : DimAgg → ℚ) :
    List (String × MData) :=
  let st1 := results.foldl
    (fun st e =>
      upd st lbl (fun v => ⟨dimAppend v.dimensions e.1 (f e.2), v.num_comparisons⟩))
    st
  upd st1 lbl (fun v => ⟨v.dimensions, v.num_comparisons + 1⟩)

/-- Both sides of the collection loop for one pair result: `model1` receives
the `path_1_average` entries, `model2` the `path_2_average` entries. -/
def applyPairResult (st : List (String × MData)) (p : PairResult) :
    List (String × MData) :=
  addPairScores (addPairScores st p.model1 p.results (fun a => a.path_1_average))
    p.model2 p.results (fun a => a.path_2_average)

/-- The `model_scores` dictionary after the collection loop of
`aggregate_model_scores`. -/
def model_scores_state (models : List String) (prs : List PairResult) :
    List (String × MData) :=
  prs.foldl applyPairResult (initState models)

/-- Final per-model aggregate of `aggregate_model_scores`: per-dimension
averages, `overall_average` and `num_comparisons`. -/
structure MAgg where
  dimensions : List (String × ℚ)
  overall_average : ℚ
  num_comparisons : ℕ
  deriving DecidableEq

/-- Concatenation of all per-dimension raw score lists in dictionary order —
the `all_scores` list of `aggregate_model_scores`. -/
def dimFlat (ds : List (String × List ℚ)) : List ℚ :=
  ds.flatMap (fun e => e.2)

/-- The averaging loop of `aggregate_model_scores` (batch_evaluation.py
lines 388-399): per-dimension mean (Python emits `0` on an empty list) and
the overall mean over the concatenated raw lists. -/
def finalizeMData (v : MData) : MAgg :=
  ⟨v.dimensions.map (fun e => (e.1, meanQ e.2)), meanQ (dimFlat v.dimensions),
   v.num_comparisons⟩

/-- Translation of `aggregate_model_scores` (batch_evaluation.py 344-401). -/
def aggregate_model_scores (prs : List PairResult) (models : List String) :
    List (String × MAgg) :=
  (model_scores_state models prs).map (fun e => (e.1, finalizeMData e.2))

/-- Position-correct side-scores one pair result contributes to model `m`
for dimension `d`: its `path_1_average` entries when `m` is the left member
and its `path_2_average` entries when `m` is the right member. -/
def sideScores (p : PairResult) (m d : String) : List ℚ :=
  (if p.model1 = m
   then (p.results.filter (fun e => e.1 == d)).map (fun e => e.2.path_1_average)
   else [])
  ++ (if p.model2 = m
      then (p.results.filter (fun e => e.1 == d)).map (fun e => e.2.path_2_average)
      else [])

/-- All position-correct side-scores model `m` receives for dimension `d`
across a batch of pair results. -/
def pairScores (prs : List PairResult) (m d : String) : List ℚ :=
  prs.flatMap (fun p => sideScores p m d)

/-- All side-scores one pair result contributes to `m`, over all its
dimensions. -/
def allSideScores (p : PairResult) (m : String) : List ℚ :=
  (if p.model1 = m then p.results.map (fun e => e.2.path_1_average) else [])
  ++ (if p.model2 = m then p.results.map (fun e => e.2.path_2_average) else [])

/-- All side-scores model `m` receives across a batch. -/
def allScores (prs : List PairResult) (m : String) : List ℚ :=
  prs.flatMap (fun p => allSideScores p m)

/-- Number of side occurrences of `m` in the batch (the code increments
`num_comparisons` once per side occurrence). -/
def numContrib (prs : List PairResult) (m : String) : ℕ :=
  prs.countP (fun p => p.model1 == m) + prs.countP (fun p => p.model2 == m)

/-- Effect of one pair result on model `m`'s accumulator entry. -/
def pairStep (p : PairResult) (m : String) (v : MData) : MData :=
  let v1 :=
    if p.model1 = m then
      (⟨p.results.foldl (fun ds e => dimAppend ds e.1 e.2.path_1_average) v.dimensions,
        v.num_comparisons + 1⟩ : MData)
    else v
  if p.model2 = m then
    ⟨p.results.foldl (fun ds e => dimAppend ds e.1 e.2.path_2_average) v1.dimensions,
     v1.num_comparisons + 1⟩
  else v1

/-- Model `m`'s row of the final aggregate (for `m` in the inventory the
default is never read: the dictionary is total over the inventory). -/
def aggOf (models : List String) (prs : List PairResult) (m : String) : MAgg :=
  (getA (aggregate_model_scores prs models) m).getD ⟨[], 0, 0⟩

/-- Model `m`'s raw per-dimension score lists after the collection loop. -/
def model_dim_lists (models : List String) (prs : List PairResult) (m : String) :
    List (String × List ℚ) :=
  ((getA (model_scores_state models prs) m).getD ⟨[], 0⟩).dimensions

/-! ## The batch driver (`run_batch_evaluation`) -/

/-- Data produced by one `run_batch_evaluation` call. -/
structure BatchOutcome where
  num_pairs : ℕ
  pair_results : List PairResult
  model_aggregate : List (String × MAgg)
  deriving DecidableEq

/-- Translation of the batch driver `run_batch_evaluation`
(batch_evaluation.py lines 92-341): discovery yields the model inventory;
`all_pairs = list(combinations(models, 2))` — no check of `len(models)` is
made, and no `DiscoveryError` exists anywhere in the repository; each pair
is evaluated inside a `try/except` whose handler prints the error and
`continue`s, so a failure (`none` from `evalPair`, which abstracts one
`LLMEvaluator.run_evaluation` call plus the session-file round-trip) skips
just that pair; finally `aggregate_model_scores` runs over the surviving
pair results. -/
def run_batch (models : List String)
    (evalPair : String → String → Option (List (String × DimAgg))) : BatchOutcome :=
  let all_pairs := combinations2 models
  let pair_results := all_pairs.filterMap
    (fun q => (evalPair q.1 q.2).map (fun res => (⟨q.1, q.2, res⟩ : PairResult)))
  ⟨all_pairs.length, pair_results, aggregate_model_scores pair_results models⟩

/-- The `model_scores` block for one dimension in
`generate_batch_aggregated_results` (batch_evaluation.py lines 421-433):
only models whose aggregate contains the dimension are listed. -/
def dimension_model_scores (model_aggregate : List (String × MAgg))
    (dim : String) : List (String × ℚ) :=
  model_aggregate.filterMap
    (fun e => (getA e.2.dimensions dim).map (fun s => (e.1, s)))

/-- One data row of `aggregated_results.csv` written by
`generate_batch_aggregated_results` (batch_evaluation.py lines 454-460): the
cell value is `data["dimensions"].get(dim, 0)` — a missing dimension is
rendered as `0`. -/
def csv_row (dims : List String) (agg : MAgg) : List ℚ :=
  dims.map (fun dim => (getA agg.dimensions dim).getD 0)

/-- Appending scores to an optional score list: `some` extends in place and
`none` becomes `some` exactly when something was appended (the shape of one
or more `dimAppend` steps seen through a lookup). -/
def optApp (o : Option (List ℚ)) (new : List ℚ) : Option (List ℚ) :=
  match o with
  | some l => some (l ++ new)
  | none => if new = [] then none else some new

/-- Inventory of the spec's three-system believability scenario. -/
def scenarioModels : List String := ["A", "B", "C"]

/-- Pair summaries of the scenario: AB yields (7,5), AC yields (6,6), BC
yields (4,8) on the believability dimension. -/
def scenarioPairs : List PairResult :=
  [⟨"A", "B", [("believability", ⟨7, 5, 10⟩)]⟩,
   ⟨"A", "C", [("believability", ⟨6, 6, 10⟩)]⟩,
   ⟨"B", "C", [("believability", ⟨4, 8, 10⟩)]⟩]

/-! # Theorems

First the association-list and list toolbox, then characterisation lemmas
for the translated functions, then one theorem per claim. -/

theorem keys_cons (e : String × α) (s : List (String × α)) :
    keys (e :: s) = e.1 :: keys s := rfl

theorem getA_upd (s : List (String × α)) (k k' : String) (f : α → α) :
    getA (upd s k f) k' = if k' = k then (getA s k').map f else getA s k' := by
  induction s with
  | nil => simp [getA, upd]
  | cons e s ih =>
    by_cases h1 : e.1 = k
    · by_cases h2 : k' = k
      · subst h1; subst h2
        simp [getA, upd]
      · have h3 : ¬ e.1 = k' := by
          rw [h1]; exact fun hk => h2 hk.symm
        have h4 : ¬ k = k' := fun hk => h2 hk.symm
        simp [getA, upd, h1, h2, h3, h4, ih]
    · by_cases h2 : e.1 = k'
      · have h3 : ¬ k' = k := fun hk => h1 (h2.trans hk)
        simp [getA, upd, h1, h2, h3]
      · simp [getA, upd, h1, h2, ih]

theorem getA_append (s t : List (String × α)) (k : String) :
    getA (s ++ t) k =
      match getA s k with
      | some v => some v
      | none => getA t k := by
  induction s with
  | nil => simp [getA]
  | cons e s ih =>
    by_cases h : e.1 = k <;> simp [getA, h, ih]

theorem keys_upd (s : List (String × α)) (k : String) (f : α → α) :
    keys (upd s k f) = keys s := by
  induction s with
  | nil => rfl
  | cons e s ih =>
    by_cases h : e.1 = k <;> simp [keys, upd, h] <;> simpa [keys] using ih

theorem getA_eq_none_iff (s : List (String × α)) (k : String) :
    getA s k = none ↔ k ∉ keys s := by
  induction s with
  | nil => simp [getA, keys]
  | cons e s ih =>
    rw [keys_cons, List.mem_cons]
    by_cases h : e.1 = k
    · simp [getA, h]
    · have h' : ¬ k = e.1 := fun hk => h hk.symm
      simp [getA, h, h', ih]

theorem upd_of_not_mem (s : List (String × α)) (k : String) (f : α → α)
    (h : k ∉ keys s) : upd s k f = s := by
  induction s with
  | nil => rfl
  | cons e s ih =>
    rw [keys_cons, List.mem_cons] at h
    push_neg at h
    have h1 : ¬ e.1 = k := fun he => h.1 he.symm
    simp [upd, h1, ih h.2]

/-- Lookup in an association list whose values were mapped in place. -/
theorem getA_map_values (s : List (String × α)) (g : α → β) (k : String) :
    getA (s.map (fun e => (e.1, g e.2))) k = (getA s k).map g := by
  induction s with
  | nil => simp [getA]
  | cons e s ih =>
    by_cases h : e.1 = k <;> simp [getA, h, ih]

/-! ## Pair-enumeration lemmas -/

theorem combinations2_length (l : List α) :
    2 * (combinations2 l).length = l.length * (l.length - 1) := by
  induction l with
  | nil => simp [combinations2]
  | cons x xs ih =>
    simp only [combinations2, List.length_append, List.length_map, List.length_cons]
    cases hxs : xs.length with
    | zero =>
      have : combinations2 xs = [] := by
        cases xs with
        | nil => rfl
        | cons a l => simp at hxs
      simp [this, hxs]
    | succ m =>
      rw [hxs, Nat.succ_sub_one] at ih
      simp only [Nat.succ_sub_one] at ih ⊢
      nlinarith [ih]

theorem mem_combinations2 (l : List α) (p : α × α) (hp : p ∈ combinations2 l) :
    p.1 ∈ l ∧ p.2 ∈ l := by
  induction l with
  | nil => simp [combinations2] at hp
  | cons x xs ih =>
    simp only [combinations2, List.mem_append, List.mem_map] at hp
    rcases hp with ⟨y, hy, rfl⟩ | hp
    · exact ⟨by simp, by simp [hy]⟩
    · exact ⟨List.mem_cons_of_mem x (ih hp).1, List.mem_cons_of_mem x (ih hp).2⟩

theorem combinations2_distinct (l : List α) (hl : l.Nodup) (p : α × α)
    (hp : p ∈ combinations2 l) : p.1 ≠ p.2 := by
  induction l with
  | nil => simp [combinations2] at hp
  | cons x xs ih =>
    rcases List.nodup_cons.mp hl with ⟨hx, hxs⟩
    simp only [combinations2, List.mem_append, List.mem_map] at hp
    rcases hp with ⟨y, hy, rfl⟩ | hp
    · intro h
      have h' : x = y := h
      exact hx (h' ▸ hy)
    · exact ih hxs hp

theorem combinations2_no_unordered_dup (l : List α) (hl : l.Nodup) :
    (combinations2 l).Pairwise (fun p q => ¬ sameUnordered p q) := by
  induction l with
  | nil => simp [combinations2]
  | cons x xs ih =>
    rcases List.nodup_cons.mp hl with ⟨hx, hxs⟩
    simp only [combinations2]
    rw [List.pairwise_append]
    refine ⟨?_, ih hxs, ?_⟩
    · rw [List.pairwise_map]
      refine List.Pairwise.imp ?_ hxs
      intro y1 y2 hne hsame
      rcases hsame with h | ⟨h1, h2⟩
      · exact hne (congrArg Prod.snd h)
      · have hx2 : x = y2 := h1
        have hy1 : y1 = x := h2
        exact hne (hy1.trans hx2)
    · intro a ha b hb
      rcases List.mem_map.mp ha with ⟨y, _, rfl⟩
      have hmem := mem_combinations2 xs b hb
      intro hsame
      rcases hsame with h | ⟨h1, h2⟩
      · have hx1 : x = b.1 := congrArg Prod.fst h
        exact hx (hx1 ▸ hmem.1)
      · have hx2 : x = b.2 := h1
        exact hx (hx2 ▸ hmem.2)

/-! ## Per-pair aggregation lemmas -/

theorem scoresA_cons (r : Log) (rs : List Log) (d : String) :
    scoresA (r :: rs) d =
      (if r.dimension = d then (getScoreA r.llm_response).toList else [])
        ++ scoresA rs d := by
  by_cases hd : r.dimension = d
  · cases hA : getScoreA r.llm_response <;>
      simp [scoresA, List.filterMap_cons, hd, hA]
  · simp [scoresA, List.filterMap_cons, hd]

theorem scoresB_cons (r : Log) (rs : List Log) (d : String) :
    scoresB (r :: rs) d =
      (if r.dimension = d then (getScoreB r.llm_response).toList else [])
        ++ scoresB rs d := by
  by_cases hd : r.dimension = d
  · cases hB : getScoreB r.llm_response <;>
      simp [scoresB, List.filterMap_cons, hd, hB]
  · simp [scoresB, List.filterMap_cons, hd]

theorem getA_addResult (st : List (String × SideScores)) (r : Log) (d : String) :
    getA (addResult st r) d =
      if r.dimension = d then
        some
          ⟨((getA st d).getD ⟨[], []⟩).scores_a ++ (getScoreA r.llm_response).toList,
           ((getA st d).getD ⟨[], []⟩).scores_b ++ (getScoreB r.llm_response).toList⟩
      else getA st d := by
  by_cases hd : r.dimension = d
  · subst hd
    cases h1 : getA st r.dimension with
    | some s =>
      cases hA : getScoreA r.llm_response <;> cases hB : getScoreB r.llm_response <;>
        simp [addResult, h1, hA, hB, getA_upd]
    | none =>
      have h2 : getA (st ++ [(r.dimension, (⟨[], []⟩ : SideScores))]) r.dimension
          = some ⟨[], []⟩ := by
        rw [getA_append, h1]
        simp [getA]
      cases hA : getScoreA r.llm_response <;> cases hB : getScoreB r.llm_response <;>
        simp [addResult, h1, hA, hB, getA_upd, h2]
  · have hne : ¬ d = r.dimension := fun h => hd h.symm
    cases h1 : getA st d with
    | some s =>
      have h2 : getA (st ++ [(r.dimension, (⟨[], []⟩ : SideScores))]) d = some s := by
        rw [getA_append, h1]
      cases hP : (getA st r.dimension).isSome <;>
        cases hA : getScoreA r.llm_response <;>
          cases hB : getScoreB r.llm_response <;>
            simp [addResult, hd, hne, h1, h2, hA, hB, hP, getA_upd]
    | none =>
      have h2 : getA (st ++ [(r.dimension, (⟨[], []⟩ : SideScores))]) d = none := by
        rw [getA_append, h1]
        simp [getA, hd]
      cases hP : (getA st r.dimension).isSome <;>
        cases hA : getScoreA r.llm_response <;>
          cases hB : getScoreB r.llm_response <;>
            simp [addResult, hd, hne, h1, h2, hA, hB, hP, getA_upd]

theorem getA_foldl_addResult (rs : List Log) (st : List (String × SideScores))
    (d : String) :
    getA (rs.foldl addResult st) d =
      match getA st d with
      | some s => some ⟨s.scores_a ++ scoresA rs d, s.scores_b ++ scoresB rs d⟩
      | none =>
        if rs.any (fun r => r.dimension == d)
        then some ⟨scoresA rs d, scoresB rs d⟩ else none := by
  induction rs generalizing st with
  | nil =>
    cases h : getA st d <;> simp [scoresA, scoresB, h]
  | cons r rs ih =>
    rw [List.foldl_cons, ih, getA_addResult]
    by_cases hd : r.dimension = d
    · cases h1 : getA st d with
      | some s =>
        simp [hd, h1, scoresA_cons, scoresB_cons]
      | none =>
        simp [hd, h1, scoresA_cons, scoresB_cons, List.any_cons]
    · cases h1 : getA st d with
      | some s =>
        simp [hd, h1, scoresA_cons, scoresB_cons]
      | none =>
        have hb : (r.dimension == d) = false := by
          simpa using hd
        simp [hd, h1, scoresA_cons, scoresB_cons, List.any_cons, hb]

/-- Grouping bridge: the accumulated side-score lists of dimension `d` are
exactly `scoresA`/`scoresB`; the key exists iff some cell was logged for `d`
(even one with no parsed score). -/
theorem getA_dimension_results (rs : List Log) (d : String) :
    getA (dimension_results rs) d =
      if rs.any (fun r => r.dimension == d)
      then some ⟨scoresA rs d, scoresB rs d⟩ else none := by
  rw [dimension_results, getA_foldl_addResult]
  simp [getA]

/-- Per-dimension block of `aggregated_results.json` in terms of the parsed
score lists. -/
theorem getA_aggregate_results (rs : List Log) (d : String) :
    getA (aggregate_results rs) d =
      if rs.any (fun r => r.dimension == d)
      then some ⟨meanQ (scoresA rs d), meanQ (scoresB rs d), (scoresA rs d).length⟩
      else none := by
  have h := getA_map_values (dimension_results rs)
    (fun s : SideScores =>
      (⟨meanQ s.scores_a, meanQ s.scores_b, s.scores_a.length⟩ : DimAgg)) d
  rw [getA_dimension_results] at h
  by_cases hc : rs.any (fun r => r.dimension == d)
  · simp only [hc, if_true] at h ⊢
    simpa [aggregate_results] using h
  · simp only [hc, if_false] at h ⊢
    simpa [aggregate_results] using h

/-! ## Cross-pair aggregation lemmas: the per-model score dictionary -/

theorem upd_append (s t : List (String × α)) (k : String) (f : α → α) :
    upd (s ++ t) k f = upd s k f ++ upd t k f := by
  induction s with
  | nil => simp [upd]
  | cons e s ih => simp [upd, ih]

theorem optApp_nil (o : Option (List ℚ)) : optApp o [] = o := by
  cases o <;> simp [optApp]

theorem optApp_assoc (o : Option (List ℚ)) (a b : List ℚ) :
    optApp (optApp o a) b = optApp o (a ++ b) := by
  cases o with
  | some l => simp [optApp]
  | none =>
    by_cases ha : a = []
    · subst ha; simp [optApp]
    · simp [optApp, ha, List.append_eq_nil]

theorem getA_dimAppend (ds : List (String × List ℚ)) (d : String) (x : ℚ)
    (d' : String) :
    getA (dimAppend ds d x) d' =
      if d' = d then some (((getA ds d).getD []) ++ [x]) else getA ds d' := by
  cases hP : getA ds d with
  | some v =>
    have hs : (getA ds d).isSome = true := by simp [hP]
    rw [dimAppend]
    simp only [hs, if_true, getA_upd, hP]
    by_cases hd : d' = d
    · subst hd; simp [hP]
    · simp [hd]
  | none =>
    have hs : (getA ds d).isSome = false := by simp [hP]
    rw [dimAppend]
    simp only [hs, Bool.false_eq_true, if_false, getA_upd]
    by_cases hd : d' = d
    · subst hd
      rw [getA_append, hP]
      simp [getA, hP]
    · simp only [hd, if_false]
      rw [getA_append]
      have hne : ¬ d = d' := fun h => hd h.symm
      cases h2 : getA ds d' <;> simp [getA, hne]

theorem keys_append (s t : List (String × α)) : keys (s ++ t) = keys s ++ keys t :=
  List.map_append _ s t

theorem keys_dimAppend (ds : List (String × List ℚ)) (d : String) (x : ℚ) :
    keys (dimAppend ds d x) =
      if (getA ds d).isSome then keys ds else keys ds ++ [d] := by
  cases hP : (getA ds d).isSome with
  | true =>
    rw [dimAppend]
    simp only [hP, if_true, keys_upd]
  | false =>
    rw [dimAppend]
    simp only [hP, Bool.false_eq_true, if_false, keys_upd, keys_append]
    rfl

theorem keys_dimAppend_nodup (ds : List (String × List ℚ)) (d : String) (x : ℚ)
    (h : (keys ds).Nodup) : (keys (dimAppend ds d x)).Nodup := by
  rw [keys_dimAppend]
  cases hP : (getA ds d).isSome with
  | true => simpa using h
  | false =>
    have hnm : d ∉ keys ds := by
      rw [← getA_eq_none_iff]
      exact Option.not_isSome_iff_eq_none.mp (by simp [hP])
    simp only [Bool.false_eq_true, if_false]
    rw [List.nodup_append]
    exact ⟨h, List.nodup_singleton d, by simpa [List.Disjoint] using fun a ha hm => hnm (by simpa [hm] using ha)⟩

theorem getA_foldl_dimAppend (rs : List (String × DimAgg)) (g : String × DimAgg → ℚ)
    (ds0 : List (String × List ℚ)) (d : String) :
    getA (rs.foldl (fun ds e => dimAppend ds e.1 (g e)) ds0) d
      = optApp (getA ds0 d) ((rs.filter (fun e => e.1 == d)).map g) := by
  induction rs generalizing ds0 with
  | nil => simp [optApp_nil]
  | cons e rs ih =>
    rw [List.foldl_cons, ih]
    by_cases he : e.1 = d
    · have hd : d = e.1 := he.symm
      have hb : (e.1 == d) = true := by simpa using he
      rw [getA_dimAppend]
      simp only [← hd, if_pos rfl, List.filter_cons, hb, List.map_cons]
      cases h0 : getA ds0 d with
      | some l => simp [optApp]
      | none => simp [optApp]
    · have hb : (e.1 == d) = false := by simpa using he
      have hd : ¬ d = e.1 := fun h => he h.symm
      rw [getA_dimAppend]
      simp [hd, hb, List.filter_cons]

theorem dimFlat_append (s t : List (String × List ℚ)) :
    dimFlat (s ++ t) = dimFlat s ++ dimFlat t := by
  simp [dimFlat]

theorem dimFlat_upd (ds : List (String × List ℚ)) (d : String) (x : ℚ)
    (h : (keys ds).Nodup) (v : List ℚ) (hv : getA ds d = some v) :
    (dimFlat (upd ds d (fun l => l ++ [x]))).Perm (dimFlat ds ++ [x]) := by
  induction ds with
  | nil => simp [getA] at hv
  | cons e s ih =>
    rw [keys_cons, List.nodup_cons] at h
    by_cases he : e.1 = d
    · have hnm : d ∉ keys s := he ▸ h.1
      rw [upd, if_pos he, upd_of_not_mem s d _ hnm]
      show (dimFlat ((e.1, e.2 ++ [x]) :: s)).Perm (dimFlat (e :: s) ++ [x])
      simp only [dimFlat, List.flatMap_cons, List.append_assoc]
      exact List.Perm.append_left e.2
        (by simpa using (@List.perm_append_comm ℚ [x] (s.flatMap (fun e => e.2))))
    · have hv' : getA s d = some v := by
        rw [getA, if_neg he] at hv
        exact hv
      rw [upd, if_neg he]
      show (dimFlat (e :: upd s d _)).Perm (dimFlat (e :: s) ++ [x])
      simp only [dimFlat, List.flatMap_cons, List.append_assoc]
      exact List.Perm.append_left e.2 (by simpa [dimFlat] using ih h.2 hv')

theorem dimFlat_dimAppend (ds : List (String × List ℚ)) (d : String) (x : ℚ)
    (h : (keys ds).Nodup) :
    (dimFlat (dimAppend ds d x)).Perm (dimFlat ds ++ [x]) := by
  cases hP : getA ds d with
  | some v =>
    have hs : (getA ds d).isSome = true := by simp [hP]
    rw [dimAppend]
    simp only [hs, if_true]
    exact dimFlat_upd ds d x h v hP
  | none =>
    have hs : (getA ds d).isSome = false := by simp [hP]
    have hnm : d ∉ keys ds := (getA_eq_none_iff ds d).mp hP
    rw [dimAppend]
    simp only [hs, Bool.false_eq_true, if_false]
    rw [upd_append, upd_of_not_mem ds d _ hnm]
    simp [dimFlat, upd]

theorem keys_foldl_dimAppend_nodup (rs : List (String × DimAgg))
    (g : String × DimAgg → ℚ) (ds0 : List (String × List ℚ))
    (h : (keys ds0).Nodup) :
    (keys (rs.foldl (fun ds e => dimAppend ds e.1 (g e)) ds0)).Nodup := by
  induction rs generalizing ds0 with
  | nil => exact h
  | cons e rs ih =>
    rw [List.foldl_cons]
    exact ih _ (keys_dimAppend_nodup ds0 e.1 (g e) h)

theorem dimFlat_foldl_dimAppend (rs : List (String × DimAgg))
    (g : String × DimAgg → ℚ) (ds0 : List (String × List ℚ))
    (h : (keys ds0).Nodup) :
    (dimFlat (rs.foldl (fun ds e => dimAppend ds e.1 (g e)) ds0)).Perm
      (dimFlat ds0 ++ rs.map g) := by
  induction rs generalizing ds0 with
  | nil => simp
  | cons e rs ih =>
    rw [List.foldl_cons]
    refine (ih _ (keys_dimAppend_nodup ds0 e.1 (g e) h)).trans ?_
    have h1 := (dimFlat_dimAppend ds0 e.1 (g e) h).append_right (rs.map g)
    refine h1.trans ?_
    simp

/-! ## Cross-pair aggregation lemmas: the model-state fold -/

theorem getA_foldl_upd (rs : List β) (g : β → α → α) (st : List (String × α))
    (lbl m : String) :
    getA (rs.foldl (fun s e => upd s lbl (g e)) st) m =
      if m = lbl then (getA st m).map (fun v => rs.foldl (fun v e => g e v) v)
      else getA st m := by
  induction rs generalizing st with
  | nil =>
    by_cases h : m = lbl <;> simp [h]
  | cons e rs ih =>
    rw [List.foldl_cons, ih, getA_upd]
    by_cases h : m = lbl
    · simp only [if_pos h, Option.map_map]
      rfl
    · simp only [if_neg h]

theorem foldl_mdata_dims (rs : List (String × DimAgg)) (f : DimAgg → ℚ) (v : MData) :
    rs.foldl
        (fun v e => (⟨dimAppend v.dimensions e.1 (f e.2), v.num_comparisons⟩ : MData))
        v
      = ⟨rs.foldl (fun ds e => dimAppend ds e.1 (f e.2)) v.dimensions,
         v.num_comparisons⟩ := by
  induction rs generalizing v with
  | nil => rfl
  | cons e rs ih => rw [List.foldl_cons, ih, List.foldl_cons]

theorem getA_addPairScores (st : List (String × MData)) (lbl : String)
    (results : List (String × DimAgg)) (f : DimAgg → ℚ) (m : String) :
    getA (addPairScores st lbl results f) m =
      if m = lbl then
        (getA st m).map (fun v =>
          ⟨results.foldl (fun ds e => dimAppend ds e.1 (f e.2)) v.dimensions,
           v.num_comparisons + 1⟩)
      else getA st m := by
  rw [addPairScores, getA_upd, getA_foldl_upd]
  by_cases h : m = lbl
  · simp only [h, if_pos rfl, Option.map_map]
    cases hv : getA st lbl with
    | none => rfl
    | some v => simp [Function.comp, foldl_mdata_dims]
  · simp [h]

theorem getA_applyPairResult (st : List (String × MData)) (p : PairResult)
    (m : String) :
    getA (applyPairResult st p) m = (getA st m).map (pairStep p m) := by
  rw [applyPairResult, getA_addPairScores]
  by_cases h2 : m = p.model2
  · rw [if_pos h2, getA_addPairScores]
    by_cases h1 : m = p.model1
    · rw [if_pos h1, Option.map_map]
      cases hv : getA st m with
      | none => rfl
      | some v =>
        have h1' : p.model1 = m := h1.symm
        have h2' : p.model2 = m := h2.symm
        simp [pairStep, h1', h2', Function.comp]
    · rw [if_neg h1]
      cases hv : getA st m with
      | none => rfl
      | some v =>
        have h1' : ¬ p.model1 = m := fun h => h1 h.symm
        have h2' : p.model2 = m := h2.symm
        simp [pairStep, h1', h2']
  · rw [if_neg h2, getA_addPairScores]
    by_cases h1 : m = p.model1
    · rw [if_pos h1]
      cases hv : getA st m with
      | none => rfl
      | some v =>
        have h1' : p.model1 = m := h1.symm
        have h2' : ¬ p.model2 = m := fun h => h2 h.symm
        simp [pairStep, h1', h2']
    · rw [if_neg h1]
      cases hv : getA st m with
      | none => rfl
      | some v =>
        have h1' : ¬ p.model1 = m := fun h => h1 h.symm
        have h2' : ¬ p.model2 = m := fun h => h2 h.symm
        simp [pairStep, h1', h2']

theorem getA_foldl_applyPairResult (prs : List PairResult)
    (st : List (String × MData)) (m : String) :
    getA (prs.foldl applyPairResult st) m =
      (getA st m).map (fun v => prs.foldl (fun v p => pairStep p m v) v) := by
  induction prs generalizing st with
  | nil => cases h : getA st m <;> simp [h]
  | cons p prs ih =>
    rw [List.foldl_cons, ih, getA_applyPairResult]
    cases h : getA st m <;> simp [h]

theorem getA_initState (models : List String) (m : String) :
    getA (initState models) m =
      if m ∈ models then some (⟨[], 0⟩ : MData) else none := by
  induction models with
  | nil => simp [initState, getA]
  | cons m' rest ih =>
    rw [initState, List.map_cons]
    by_cases h : m' = m
    · simp [getA, h]
    · have h' : ¬ m = m' := fun hk => h hk.symm
      rw [initState] at ih
      simp [getA, h, h', ih]

/-- The per-model accumulator after the whole collection loop, for a model
in the inventory. -/
theorem getA_model_scores_state (models : List String) (prs : List PairResult)
    (m : String) (hm : m ∈ models) :
    getA (model_scores_state models prs) m =
      some (prs.foldl (fun v p => pairStep p m v) ⟨[], 0⟩) := by
  rw [model_scores_state, getA_foldl_applyPairResult, getA_initState, if_pos hm]
  rfl

theorem sideScores_eq (p : PairResult) (m d : String) :
    sideScores p m d =
      (if p.model1 = m
       then ((p.results.filter (fun e => e.1 == d)).map (fun e => e.2.path_1_average))
       else [])
      ++ (if p.model2 = m
          then ((p.results.filter (fun e => e.1 == d)).map (fun e => e.2.path_2_average))
          else []) := rfl

/-- Effect of one pair step on the lookup of dimension `d`. -/
theorem getA_pairStep_dims (p : PairResult) (m : String) (v : MData) (d : String) :
    getA (pairStep p m v).dimensions d =
      optApp (getA v.dimensions d) (sideScores p m d) := by
  rw [pairStep, sideScores_eq]
  by_cases h1 : p.model1 = m
  · by_cases h2 : p.model2 = m
    · simp only [if_pos h1, if_pos h2]
      rw [getA_foldl_dimAppend, getA_foldl_dimAppend, optApp_assoc]
    · simp only [if_pos h1, if_neg h2, List.append_nil]
      rw [getA_foldl_dimAppend]
  · by_cases h2 : p.model2 = m
    · simp only [if_neg h1, if_pos h2, List.nil_append]
      rw [getA_foldl_dimAppend]
    · simp only [if_neg h1, if_neg h2, List.append_nil]
      rw [optApp_nil]

theorem pairScores_cons (p : PairResult) (prs : List PairResult) (m d : String) :
    pairScores (p :: prs) m d = sideScores p m d ++ pairScores prs m d := by
  simp [pairScores]

/-- Lookup of dimension `d` after folding a whole batch of pair results. -/
theorem getA_foldl_pairStep_dims (prs : List PairResult) (m : String) (v : MData)
    (d : String) :
    getA (prs.foldl (fun v p => pairStep p m v) v).dimensions d =
      optApp (getA v.dimensions d) (pairScores prs m d) := by
  induction prs generalizing v with
  | nil => simp [pairScores, optApp_nil]
  | cons p prs ih =>
    rw [List.foldl_cons, ih, getA_pairStep_dims, optApp_assoc, pairScores_cons]

theorem keys_pairStep_nodup (p : PairResult) (m : String) (v : MData)
    (h : (keys v.dimensions).Nodup) : (keys (pairStep p m v).dimensions).Nodup := by
  rw [pairStep]
  by_cases h1 : p.model1 = m
  · by_cases h2 : p.model2 = m
    · simp only [if_pos h1, if_pos h2]
      exact keys_foldl_dimAppend_nodup _ _ _ (keys_foldl_dimAppend_nodup _ _ _ h)
    · simp only [if_pos h1, if_neg h2]
      exact keys_foldl_dimAppend_nodup _ _ _ h
  · by_cases h2 : p.model2 = m
    · simp only [if_neg h1, if_pos h2]
      exact keys_foldl_dimAppend_nodup _ _ _ h
    · simp only [if_neg h1, if_neg h2]
      exact h

theorem allSideScores_eq (p : PairResult) (m : String) :
    allSideScores p m =
      (if p.model1 = m then p.results.map (fun e => e.2.path_1_average) else [])
      ++ (if p.model2 = m then p.results.map (fun e => e.2.path_2_average) else []) := rfl

theorem dimFlat_pairStep (p : PairResult) (m : String) (v : MData)
    (h : (keys v.dimensions).Nodup) :
    (dimFlat (pairStep p m v).dimensions).Perm
      (dimFlat v.dimensions ++ allSideScores p m) := by
  rw [pairStep, allSideScores_eq]
  by_cases h1 : p.model1 = m
  · by_cases h2 : p.model2 = m
    · simp only [if_pos h1, if_pos h2]
      refine (dimFlat_foldl_dimAppend _ _ _ (keys_foldl_dimAppend_nodup _ _ _ h)).trans ?_
      have hperm := (dimFlat_foldl_dimAppend p.results (fun e => e.2.path_1_average)
        v.dimensions h).append_right (p.results.map (fun e => e.2.path_2_average))
      refine hperm.trans ?_
      simp [List.append_assoc]
    · simp only [if_pos h1, if_neg h2, List.append_nil]
      exact dimFlat_foldl_dimAppend _ _ _ h
  · by_cases h2 : p.model2 = m
    · simp only [if_neg h1, if_pos h2, List.nil_append]
      exact dimFlat_foldl_dimAppend _ _ _ h
    · simp only [if_neg h1, if_neg h2, List.append_nil]
      exact List.Perm.refl _

theorem allScores_cons (p : PairResult) (prs : List PairResult) (m : String) :
    allScores (p :: prs) m = allSideScores p m ++ allScores prs m := by
  simp [allScores]

theorem dimFlat_foldl_pairStep (prs : List PairResult) (m : String) (v : MData)
    (h : (keys v.dimensions).Nodup) :
    (dimFlat (prs.foldl (fun v p => pairStep p m v) v).dimensions).Perm
      (dimFlat v.dimensions ++ allScores prs m) := by
  induction prs generalizing v with
  | nil => simp [allScores]
  | cons p prs ih =>
    rw [List.foldl_cons, allScores_cons]
    refine (ih _ (keys_pairStep_nodup p m v h)).trans ?_
    refine ((dimFlat_pairStep p m v h).append_right (allScores prs m)).trans ?_
    simp [List.append_assoc]

theorem num_pairStep (p : PairResult) (m : String) (v : MData) :
    (pairStep p m v).num_comparisons =
      v.num_comparisons + (if p.model1 = m then 1 else 0)
        + (if p.model2 = m then 1 else 0) := by
  rw [pairStep]
  by_cases h1 : p.model1 = m <;> by_cases h2 : p.model2 = m <;> simp [h1, h2]

theorem numContrib_cons (p : PairResult) (prs : List PairResult) (m : String) :
    numContrib (p :: prs) m =
      numContrib prs m + (if p.model1 = m then 1 else 0)
        + (if p.model2 = m then 1 else 0) := by
  by_cases h1 : p.model1 = m <;> by_cases h2 : p.model2 = m <;>
    simp [numContrib, List.countP_cons, h1, h2] <;> omega

theorem num_foldl_pairStep (prs : List PairResult) (m : String) (v : MData) :
    (prs.foldl (fun v p => pairStep p m v) v).num_comparisons =
      v.num_comparisons + numContrib prs m := by
  induction prs generalizing v with
  | nil => simp [numContrib]
  | cons p prs ih =>
    rw [List.foldl_cons, ih, num_pairStep, numContrib_cons]
    omega

/-! ## Main characterisation of the cross-pair aggregate -/

theorem getA_aggregate_model_scores (models : List String) (prs : List PairResult)
    (m : String) (hm : m ∈ models) :
    getA (aggregate_model_scores prs models) m =
      some (finalizeMData (prs.foldl (fun v p => pairStep p m v) ⟨[], 0⟩)) := by
  rw [aggregate_model_scores, getA_map_values,
    getA_model_scores_state models prs m hm]
  rfl

theorem model_dim_lists_eq (models : List String) (prs : List PairResult)
    (m : String) (hm : m ∈ models) :
    model_dim_lists models prs m =
      (prs.foldl (fun v p => pairStep p m v) ⟨[], 0⟩).dimensions := by
  rw [model_dim_lists, getA_model_scores_state models prs m hm]
  rfl

theorem aggOf_eq (models : List String) (prs : List PairResult) (m : String)
    (hm : m ∈ models) :
    aggOf models prs m =
      finalizeMData (prs.foldl (fun v p => pairStep p m v) ⟨[], 0⟩) := by
  rw [aggOf, getA_aggregate_model_scores models prs m hm]
  rfl

/-- The raw score list a model accumulates for a dimension is exactly the
list of position-correct side-scores of the pairs it belongs to. -/
theorem getA_model_dim_lists (models : List String) (prs : List PairResult)
    (m : String) (hm : m ∈ models) (d : String) :
    getA (model_dim_lists models prs m) d =
      if pairScores prs m d = [] then none else some (pairScores prs m d) := by
  rw [model_dim_lists_eq models prs m hm, getA_foldl_pairStep_dims]
  simp [getA, optApp]

/-- The concatenated raw score lists are, as a multiset, all side-scores the
model received. -/
theorem dimFlat_model_dim_lists (models : List String) (prs : List PairResult)
    (m : String) (hm : m ∈ models) :
    (dimFlat (model_dim_lists models prs m)).Perm (allScores prs m) := by
  rw [model_dim_lists_eq models prs m hm]
  have h := dimFlat_foldl_pairStep prs m ⟨[], 0⟩ (by simp [keys])
  simpa [dimFlat] using h

theorem aggOf_dimensions (models : List String) (prs : List PairResult)
    (m : String) (hm : m ∈ models) :
    (aggOf models prs m).dimensions =
      (model_dim_lists models prs m).map (fun e => (e.1, meanQ e.2)) := by
  rw [aggOf_eq models prs m hm, model_dim_lists_eq models prs m hm]
  rfl

theorem aggOf_overall (models : List String) (prs : List PairResult)
    (m : String) (hm : m ∈ models) :
    (aggOf models prs m).overall_average =
      meanQ (dimFlat (model_dim_lists models prs m)) := by
  rw [aggOf_eq models prs m hm, model_dim_lists_eq models prs m hm]
  rfl

theorem aggOf_num (models : List String) (prs : List PairResult) (m : String)
    (hm : m ∈ models) :
    (aggOf models prs m).num_comparisons = numContrib prs m := by
  rw [aggOf_eq models prs m hm]
  have h := num_foldl_pairStep prs m ⟨[], 0⟩
  simpa [finalizeMData] using h

/-- Per-dimension entry of the final aggregate for a model in the
inventory: the mean of its position-correct pair scores, present exactly
when at least one pair contributed. -/
theorem getA_aggOf_dimensions (models : List String) (prs : List PairResult)
    (m : String) (hm : m ∈ models) (d : String) :
    getA (aggOf models prs m).dimensions d =
      if pairScores prs m d = [] then none
      else some (meanQ (pairScores prs m d)) := by
  rw [aggOf_dimensions models prs m hm, getA_map_values,
    getA_model_dim_lists models prs m hm]
  by_cases h : pairScores prs m d = [] <;> simp [h]

/-! ## Mean lemmas -/

theorem meanQ_perm (l l' : List ℚ) (h : l.Perm l') : meanQ l = meanQ l' := by
  have hlen := h.length_eq
  have hsum := h.sum_eq
  rw [meanQ, meanQ, hsum, hlen]
  by_cases hl : l = []
  · have hl' : l' = [] := by
      have hz : l'.length = 0 := by rw [← hlen, hl]; rfl
      exact List.length_eq_zero.mp hz
    simp [hl, hl']
  · have hl' : l' ≠ [] := by
      intro hh
      apply hl
      have hz : l.length = 0 := by rw [hlen, hh]; rfl
      exact List.length_eq_zero.mp hz
    simp [hl, hl']

theorem sum_dimFlat (ds : List (String × List ℚ)) :
    (dimFlat ds).sum = (ds.map (fun e => e.2.sum)).sum := by
  induction ds with
  | nil => simp [dimFlat]
  | cons e ds ih =>
    simp only [dimFlat] at ih ⊢
    simp [List.flatMap_cons, ih]

theorem length_dimFlat (ds : List (String × List ℚ)) :
    (dimFlat ds).length = (ds.map (fun e => e.2.length)).sum := by
  induction ds with
  | nil => simp [dimFlat]
  | cons e ds ih =>
    simp only [dimFlat] at ih ⊢
    simp [List.flatMap_cons, ih]

theorem sum_map_div (l : List ℚ) (c : ℚ) :
    (l.map (fun x => x / c)).sum = l.sum / c := by
  induction l with
  | nil => simp
  | cons x l ih => simp [ih, add_div]

/-- When every per-dimension list has the same length, the mean over the
concatenation coincides with the mean of the per-dimension means. -/
theorem meanQ_dimFlat_const (ds : List (String × List ℚ)) (k : ℕ)
    (hk : ∀ e ∈ ds, e.2.length = k) :
    meanQ (dimFlat ds) = meanQ (ds.map (fun e => meanQ e.2)) := by
  by_cases hds : ds = []
  · subst hds; simp [dimFlat, meanQ]
  · by_cases hk0 : k = 0
    · subst hk0
      have hnil : ∀ e ∈ ds, e.2 = ([] : List ℚ) :=
        fun e he => List.length_eq_zero.mp (hk e he)
      have hflat : dimFlat ds = [] := by
        rw [dimFlat, List.flatMap_eq_nil_iff]
        exact hnil
      have hmap : ds.map (fun e => meanQ e.2) = ds.map (fun _ => (0 : ℚ)) :=
        List.map_congr_left (fun e he => by simp [meanQ, hnil e he])
      rw [hflat, hmap, meanQ, meanQ]
      have hzero : (ds.map (fun _ => (0 : ℚ))).sum = 0 := by
        simp
      simp [hds, hzero]
    · have hkQ : (k : ℚ) ≠ 0 := by exact_mod_cast hk0
      have hlens : ds.map (fun e => e.2.length) = ds.map (fun _ => k) :=
        List.map_congr_left (fun e he => hk e he)
      have hlen : (dimFlat ds).length = ds.length * k := by
        rw [length_dimFlat, hlens]
        simp [mul_comm]
      have hmeans : ds.map (fun e => meanQ e.2)
          = ds.map (fun e => e.2.sum / (k : ℚ)) :=
        List.map_congr_left (fun e he => by
          have hne : e.2 ≠ [] := by
            intro hh
            apply hk0
            rw [← hk e he, hh]
            rfl
          rw [meanQ, if_neg hne, hk e he])
      have hfne : dimFlat ds ≠ [] := by
        intro hh
        have hz := congrArg List.length hh
        rw [hlen] at hz
        simp only [List.length_nil] at hz
        rcases Nat.mul_eq_zero.mp hz with h | h
        · exact hds (List.length_eq_zero.mp h)
        · exact hk0 h
      have hmne : ds.map (fun e => e.2.sum / (k : ℚ)) ≠ [] := by
        simpa using hds
      rw [meanQ, if_neg hfne, meanQ, hmeans, if_neg hmne]
      have hsum2 : (ds.map (fun e => e.2.sum / (k : ℚ))).sum =
          (ds.map (fun e => e.2.sum)).sum / k := by
        have hcomp : ds.map (fun e => e.2.sum / (k : ℚ)) =
            (ds.map (fun e => e.2.sum)).map (fun x => x / (k : ℚ)) := by
          simp [List.map_map, Function.comp]
        rw [hcomp, sum_map_div]
      rw [hsum2, sum_dimFlat, hlen]
      push_cast
      rw [div_div, mul_comm]
      simp

/-! ## Key uniqueness of the per-pair dimension dictionary -/

theorem keys_addResult (st : List (String × SideScores)) (r : Log) :
    keys (addResult st r) =
      if (getA st r.dimension).isSome then keys st
      else keys st ++ [r.dimension] := by
  have hone : keys [(r.dimension, (⟨[], []⟩ : SideScores))] = [r.dimension] := rfl
  cases hP : (getA st r.dimension).isSome <;>
    cases hA : getScoreA r.llm_response <;>
      cases hB : getScoreB r.llm_response <;>
        simp [addResult, hP, hA, hB, keys_upd, keys_append, hone]

theorem addResult_keys_nodup (st : List (String × SideScores)) (r : Log)
    (h : (keys st).Nodup) : (keys (addResult st r)).Nodup := by
  rw [keys_addResult]
  cases hP : (getA st r.dimension).isSome with
  | true => simpa using h
  | false =>
    have hnm : r.dimension ∉ keys st := by
      rw [← getA_eq_none_iff]
      exact Option.not_isSome_iff_eq_none.mp (by simp [hP])
    simp only [Bool.false_eq_true, if_false]
    rw [List.nodup_append]
    exact ⟨h, List.nodup_singleton _,
      by simpa [List.Disjoint] using fun a ha hm => hnm (by simpa [hm] using ha)⟩

theorem foldl_addResult_keys_nodup (rs : List Log) (st : List (String × SideScores))
    (h : (keys st).Nodup) : (keys (rs.foldl addResult st)).Nodup := by
  induction rs generalizing st with
  | nil => exact h
  | cons r rs ih =>
    rw [List.foldl_cons]
    exact ih _ (addResult_keys_nodup st r h)

theorem keys_map_values (s : List (String × α)) (g : α → β) :
    keys (s.map (fun e => (e.1, g e.2))) = keys s := by
  simp [keys, List.map_map, Function.comp]

theorem aggregate_results_keys_nodup (rs : List Log) :
    (keys (aggregate_results rs)).Nodup := by
  rw [aggregate_results]
  have h := keys_map_values (dimension_results rs)
    (fun s : SideScores =>
      (⟨meanQ s.scores_a, meanQ s.scores_b, s.scores_a.length⟩ : DimAgg))
  rw [h, dimension_results]
  exact foldl_addResult_keys_nodup rs [] (by simp [keys])

theorem filter_eq_nil_of_not_mem (s : List (String × α)) (d : String)
    (h : d ∉ keys s) : s.filter (fun e => e.1 == d) = [] := by
  rw [List.filter_eq_nil_iff]
  intro a ha
  simp only [beq_iff_eq]
  intro had
  exact h (by rw [← had]; exact List.mem_map.mpr ⟨a, ha, rfl⟩)

/-- With unique keys, the entries matching a present key are exactly the
singleton holding its looked-up value. -/
theorem filter_eq_of_getA (s : List (String × α)) (d : String) (v : α)
    (hnd : (keys s).Nodup) (h : getA s d = some v) :
    s.filter (fun e => e.1 == d) = [(d, v)] := by
  induction s with
  | nil => simp [getA] at h
  | cons e s ih =>
    rw [keys_cons, List.nodup_cons] at hnd
    by_cases he : e.1 = d
    · rw [getA, if_pos he] at h
      have hv : e.2 = v := Option.some.inj h
      have hnil : s.filter (fun e => e.1 == d) = [] :=
        filter_eq_nil_of_not_mem s d (he ▸ hnd.1)
      obtain ⟨k, x⟩ := e
      rw [List.filter_cons]
      have hb : ((k, x).1 == d) = true := by simpa using he
      simp only [hb, if_true, hnil]
      simp only at he hv
      rw [he, hv]
    · rw [getA, if_neg he] at h
      rw [List.filter_cons]
      have hb : (e.1 == d) = false := by simpa using he
      simp only [hb, Bool.false_eq_true, if_false]
      exact ih hnd.2 h

/-! # Claim theorems -/

/-- C3: pair enumeration over a duplicate-free inventory of `n ≥ 2` systems
produces exactly `n·(n-1)/2` pairs, each consisting of two distinct
systems, and no unordered pair appears twice. -/
theorem C3_pair_enumeration (l : List α) (h2 : 2 ≤ l.length) (hl : l.Nodup) :
    (combinations2 l).length = l.length * (l.length - 1) / 2
    ∧ (∀ p ∈ combinations2 l, p.1 ≠ p.2)
    ∧ (combinations2 l).Pairwise (fun p q => ¬ sameUnordered p q) := by
  refine ⟨?_, fun p hp => combinations2_distinct l hl p hp,
    combinations2_no_unordered_dup l hl⟩
  have h := combinations2_length l
  omega

/-- Witness for C3 at a concrete three-system inventory. -/
theorem C3_pair_enumeration_witness :
    2 ≤ (["a", "b", "c"] : List String).length
    ∧ (["a", "b", "c"] : List String).Nodup
    ∧ ((combinations2 ["a", "b", "c"]).length = 3 * (3 - 1) / 2
        ∧ (∀ p ∈ combinations2 ["a", "b", "c"], p.1 ≠ p.2)
        ∧ (combinations2 (["a", "b", "c"] : List String)).Pairwise
            (fun p q => ¬ sameUnordered p q)) := by
  refine ⟨by decide, by decide, ?_⟩
  simpa using C3_pair_enumeration (["a", "b", "c"] : List String) (by decide) (by decide)

/-- C1: cross-pair aggregation is position-correct and de-biased — a
system's aggregate score for a dimension is the mean of the left-side pair
averages of every pair where it is the left member together with the
right-side pair averages of every pair where it is the right member; in the
three-system believability scenario (AB=(7,5), AC=(6,6), BC=(4,8)) the
aggregates are A = 6.5, B = 4.5, C = 7.0 and the overall ranking is
C > A > B. -/
theorem C1_cross_pair_aggregation (models : List String) (prs : List PairResult)
    (m d : String) (hm : m ∈ models) (hne : pairScores prs m d ≠ []) :
    getA (aggOf models prs m).dimensions d = some (meanQ (pairScores prs m d))
    ∧ getA (aggOf scenarioModels scenarioPairs "A").dimensions "believability"
        = some (13/2)
    ∧ getA (aggOf scenarioModels scenarioPairs "B").dimensions "believability"
        = some (9/2)
    ∧ getA (aggOf scenarioModels scenarioPairs "C").dimensions "believability"
        = some 7
    ∧ (aggOf scenarioModels scenarioPairs "C").overall_average
        > (aggOf scenarioModels scenarioPairs "A").overall_average
    ∧ (aggOf scenarioModels scenarioPairs "A").overall_average
        > (aggOf scenarioModels scenarioPairs "B").overall_average := by
  have hdim : ∀ x : String, x ∈ scenarioModels →
      ∀ v : List ℚ, pairScores scenarioPairs x "believability" = v →
      getA (aggOf scenarioModels scenarioPairs x).dimensions "believability"
        = if v = [] then none else some (meanQ v) := by
    intro x hx v hv
    rw [getA_aggOf_dimensions scenarioModels scenarioPairs x hx, hv]
  have hpA : pairScores scenarioPairs "A" "believability" = [7, 6] := by
    simp [scenarioPairs, pairScores, sideScores]
  have hpB : pairScores scenarioPairs "B" "believability" = [5, 4] := by
    simp [scenarioPairs, pairScores, sideScores]
  have hpC : pairScores scenarioPairs "C" "believability" = [6, 8] := by
    simp [scenarioPairs, pairScores, sideScores]
  have hov : ∀ x : String, x ∈ scenarioModels →
      (aggOf scenarioModels scenarioPairs x).overall_average
        = meanQ (allScores scenarioPairs x) := by
    intro x hx
    rw [aggOf_overall scenarioModels scenarioPairs x hx]
    exact meanQ_perm _ _ (dimFlat_model_dim_lists scenarioModels scenarioPairs x hx)
  have haA : allScores scenarioPairs "A" = [7, 6] := by
    simp [scenarioPairs, allScores, allSideScores]
  have haB : allScores scenarioPairs "B" = [5, 4] := by
    simp [scenarioPairs, allScores, allSideScores]
  have haC : allScores scenarioPairs "C" = [6, 8] := by
    simp [scenarioPairs, allScores, allSideScores]
  have hmA : ("A" : String) ∈ scenarioModels := by simp [scenarioModels]
  have hmB : ("B" : String) ∈ scenarioModels := by simp [scenarioModels]
  have hmC : ("C" : String) ∈ scenarioModels := by simp [scenarioModels]
  have h76 : ([(7 : ℚ), 6] : List ℚ) ≠ [] := by simp
  have h54 : ([(5 : ℚ), 4] : List ℚ) ≠ [] := by simp
  have h68 : ([(6 : ℚ), 8] : List ℚ) ≠ [] := by simp
  refine ⟨?_, ?_, ?_, ?_, ?_, ?_⟩
  · rw [getA_aggOf_dimensions models prs m hm, if_neg hne]
  · rw [hdim "A" hmA _ hpA, if_neg h76]
    simp only [meanQ, if_neg h76]
    norm_num
  · rw [hdim "B" hmB _ hpB, if_neg h54]
    simp only [meanQ, if_neg h54]
    norm_num
  · rw [hdim "C" hmC _ hpC, if_neg h68]
    simp only [meanQ, if_neg h68]
    norm_num
  · rw [hov "C" hmC, hov "A" hmA, haC, haA]
    simp only [meanQ, if_neg h68, if_neg h76]
    norm_num
  · rw [hov "A" hmA, hov "B" hmB, haA, haB]
    simp only [meanQ, if_neg h76, if_neg h54]
    norm_num

/-- Witness for C1 at the scenario input. -/
theorem C1_cross_pair_aggregation_witness :
    ("A" ∈ scenarioModels)
    ∧ pairScores scenarioPairs "A" "believability" ≠ []
    ∧ getA (aggOf scenarioModels scenarioPairs "A").dimensions "believability"
        = some (meanQ (pairScores scenarioPairs "A" "believability")) := by
  refine ⟨by simp [scenarioModels], ?_, ?_⟩
  · simp [scenarioPairs, pairScores, sideScores]
  · exact (C1_cross_pair_aggregation scenarioModels scenarioPairs "A" "believability"
      (by simp [scenarioModels])
      (by simp [scenarioPairs, pairScores, sideScores])).1

/-- C5: the effective number of index-aligned pairs equals
`min(len(source_A), len(source_B), cap_if_given)`; a requested cap of 10
against a smaller source of length 7 is clamped to 7 and a warning is
emitted. -/
theorem C5_conversation_cap :
    (∀ lenA lenB : ℕ, (effective_num_pairs lenA lenB none).1 = min lenA lenB)
    ∧ (∀ lenA lenB m : ℕ,
        (effective_num_pairs lenA lenB (some m)).1 = min (min lenA lenB) m)
    ∧ effective_num_pairs 12 7 (some 10) = (7, true) := by
  exact ⟨fun a b => rfl, fun a b m => rfl, by decide⟩

/-- C6: a judge reply in which no well-formed structured object can be
located and decoded parses to the sentinel carrying the raw text and the
parse-failure flag, and both of that cell's sub-scores are absent for
aggregation: the cell is appended to neither side's score list. -/
theorem C6_unparseable_reply (decode : List Char → Option Verdict) (text : String)
    (h : extract_json text.data = none
        ∨ ∃ s, extract_json text.data = some s ∧ decode s = none) :
    parse_llm_response decode text = .failed text
    ∧ parsing_error (parse_llm_response decode text) = true
    ∧ getScoreA (parse_llm_response decode text) = none
    ∧ getScoreB (parse_llm_response decode text) = none
    ∧ ∀ (l1 l2 : List Log) (dcell d : String),
        scoresA (l1 ++ (⟨dcell, parse_llm_response decode text⟩ : Log) :: l2) d
            = scoresA (l1 ++ l2) d
        ∧ scoresB (l1 ++ (⟨dcell, parse_llm_response decode text⟩ : Log) :: l2) d
            = scoresB (l1 ++ l2) d := by
  have hp : parse_llm_response decode text = .failed text := by
    rcases h with h | ⟨s, hs, hd⟩
    · rw [parse_llm_response, h]
    · rw [parse_llm_response, hs]
      simp [hd]
  refine ⟨hp, by rw [hp]; rfl, by rw [hp]; rfl, by rw [hp]; rfl, ?_⟩
  intro l1 l2 dcell d
  rw [hp]
  constructor
  · simp [scoresA, List.filterMap_append, List.filterMap_cons, getScoreA]
  · simp [scoresB, List.filterMap_append, List.filterMap_cons, getScoreB]

/-- Witness for C6 on a reply with no braces at all. -/
theorem C6_unparseable_reply_witness :
    (extract_json ("transport glitch, no verdict".data) = none
      ∨ ∃ s, extract_json ("transport glitch, no verdict".data) = some s
          ∧ (fun _ : List Char => (none : Option Verdict)) s = none)
    ∧ parse_llm_response (fun _ => none) "transport glitch, no verdict"
        = .failed "transport glitch, no verdict" := by
  have h : extract_json ("transport glitch, no verdict".data) = none := by decide
  exact ⟨Or.inl h,
    (C6_unparseable_reply (fun _ => none) "transport glitch, no verdict" (Or.inl h)).1⟩

/-- C7 (amended): for a pair in which every cell's judge reply for a
dimension is unparseable, the pair's dimension summary shows zero
contributing cells (`num_evaluations = 0`) with both side averages emitted
as the implicit zero; consequently, in the cross-pair aggregation BOTH
member systems receive a contribution of 0 from that pair for that
dimension — the pair is counted as a zero score, not omitted. -/
theorem C7_unparseable_pair (rs : List Log) (d : String)
    (hsome : ∃ r ∈ rs, r.dimension = d)
    (hfail : ∀ r ∈ rs, r.dimension = d →
      getScoreA r.llm_response = none ∧ getScoreB r.llm_response = none) :
    getA (aggregate_results rs) d = some ⟨0, 0, 0⟩
    ∧ ∀ m1 m2 : String, m1 ≠ m2 →
        sideScores ⟨m1, m2, aggregate_results rs⟩ m1 d = [0]
        ∧ sideScores ⟨m1, m2, aggregate_results rs⟩ m2 d = [0] := by
  have hA : scoresA rs d = [] := by
    rw [scoresA, List.filterMap_eq_nil_iff]
    intro r hr
    by_cases hd : r.dimension = d
    · simp [hd, (hfail r hr hd).1]
    · simp [hd]
  have hB : scoresB rs d = [] := by
    rw [scoresB, List.filterMap_eq_nil_iff]
    intro r hr
    by_cases hd : r.dimension = d
    · simp [hd, (hfail r hr hd).2]
    · simp [hd]
  have hany : rs.any (fun r => r.dimension == d) = true := by
    rcases hsome with ⟨r, hr, hd⟩
    exact List.any_eq_true.mpr ⟨r, hr, by simpa using hd⟩
  have h1 : getA (aggregate_results rs) d = some ⟨0, 0, 0⟩ := by
    rw [getA_aggregate_results, if_pos hany, hA, hB]
    simp [meanQ]
  refine ⟨h1, ?_⟩
  intro m1 m2 hne
  have hf := filter_eq_of_getA (aggregate_results rs) d _
    (aggregate_results_keys_nodup rs) h1
  have hne' : ¬ m2 = m1 := fun h => hne h.symm
  constructor
  · simp [sideScores, hf, hne']
  · simp [sideScores, hf, hne]

/-- Witness for C7 (amended) on a single unparseable believability cell. -/
theorem C7_unparseable_pair_witness :
    (∃ r ∈ [(⟨"believability", ParsedResponse.failed "garbled"⟩ : Log)],
        r.dimension = "believability")
    ∧ (∀ r ∈ [(⟨"believability", ParsedResponse.failed "garbled"⟩ : Log)],
        r.dimension = "believability" →
        getScoreA r.llm_response = none ∧ getScoreB r.llm_response = none)
    ∧ getA (aggregate_results [⟨"believability", ParsedResponse.failed "garbled"⟩])
        "believability" = some ⟨0, 0, 0⟩ := by
  refine ⟨⟨⟨"believability", ParsedResponse.failed "garbled"⟩, by simp, rfl⟩,
    by simp [getScoreA, getScoreB], ?_⟩
  exact (C7_unparseable_pair [⟨"believability", ParsedResponse.failed "garbled"⟩]
    "believability" ⟨⟨"believability", ParsedResponse.failed "garbled"⟩, by simp, rfl⟩
    (by simp [getScoreA, getScoreB])).1

/-- Counterexample to C7 as stated: pair AB is entirely unparseable on
believability (its summary is the implicit zero), pair AC gives A an 8;
were AB omitted, A's believability aggregate would be 8, but the code
appends AB's 0 and yields 4 — the member systems do receive a (zero)
contribution from the all-unparseable pair. -/
theorem C7_counterexample :
    aggregate_results [⟨"believability", ParsedResponse.failed "garbled"⟩]
        = [("believability", ⟨0, 0, 0⟩)]
    ∧ pairScores
        [⟨"A", "B", aggregate_results [⟨"believability", ParsedResponse.failed "garbled"⟩]⟩,
         ⟨"A", "C", [("believability", ⟨8, 6, 3⟩)]⟩] "A" "believability" = [0, 8]
    ∧ getA (aggOf ["A", "B", "C"]
        [⟨"A", "B", aggregate_results [⟨"believability", ParsedResponse.failed "garbled"⟩]⟩,
         ⟨"A", "C", [("believability", ⟨8, 6, 3⟩)]⟩] "A").dimensions "believability"
      = some 4 := by
  have hagg : aggregate_results [⟨"believability", ParsedResponse.failed "garbled"⟩]
      = [("believability", ⟨0, 0, 0⟩)] := rfl
  have hps : pairScores
      [⟨"A", "B", aggregate_results [⟨"believability", ParsedResponse.failed "garbled"⟩]⟩,
       ⟨"A", "C", [("believability", ⟨8, 6, 3⟩)]⟩] "A" "believability" = [0, 8] := by
    rw [hagg]
    simp [pairScores, sideScores]
  refine ⟨hagg, hps, ?_⟩
  have h08 : ([(0 : ℚ), 8] : List ℚ) ≠ [] := by simp
  rw [getA_aggOf_dimensions _ _ _ (by simp), hps, if_neg h08]
  simp only [meanQ, if_neg h08]
  norm_num

/-- C8 (amended): a system's overall average is the mean over the
concatenation of its per-dimension raw score lists (each contributed
pair-side average counted once — as a multiset these are exactly all the
side-scores it received), not in general the mean of the per-dimension
means; the two do coincide whenever every dimension carries the same number
of contributing scores (though they can also coincide accidentally). -/
theorem C8_overall_average (models : List String) (prs : List PairResult)
    (m : String) (hm : m ∈ models) :
    (aggOf models prs m).overall_average
        = meanQ (dimFlat (model_dim_lists models prs m))
    ∧ (dimFlat (model_dim_lists models prs m)).Perm (allScores prs m)
    ∧ ∀ k : ℕ, (∀ e ∈ model_dim_lists models prs m, e.2.length = k) →
        (aggOf models prs m).overall_average
          = meanQ ((aggOf models prs m).dimensions.map (fun e => e.2)) := by
  refine ⟨aggOf_overall models prs m hm, dimFlat_model_dim_lists models prs m hm, ?_⟩
  intro k hk
  rw [aggOf_overall models prs m hm, aggOf_dimensions models prs m hm,
    meanQ_dimFlat_const _ k hk]
  congr 1
  simp [List.map_map, Function.comp]

/-- Witness for C8 (amended) at the scenario input. -/
theorem C8_overall_average_witness :
    ("A" ∈ scenarioModels)
    ∧ (aggOf scenarioModels scenarioPairs "A").overall_average
        = meanQ (dimFlat (model_dim_lists scenarioModels scenarioPairs "A")) :=
  ⟨by simp [scenarioModels],
   (C8_overall_average scenarioModels scenarioPairs "A" (by simp [scenarioModels])).1⟩

/-- Counterexample to the "coincide only when" rider of C8: system A's
dimension d1 carries one score and d2 two (all equal to 5), so the
contributing counts differ, yet the overall average and the mean of the
per-dimension means both equal 5. -/
theorem C8_counterexample :
    model_dim_lists ["A", "B"]
        [⟨"A", "B", [("d1", ⟨5, 1, 1⟩), ("d2", ⟨5, 2, 1⟩)]⟩,
         ⟨"A", "B", [("d2", ⟨5, 3, 1⟩)]⟩] "A"
      = [("d1", [5]), ("d2", [5, 5])]
    ∧ (model_dim_lists ["A", "B"]
        [⟨"A", "B", [("d1", ⟨5, 1, 1⟩), ("d2", ⟨5, 2, 1⟩)]⟩,
         ⟨"A", "B", [("d2", ⟨5, 3, 1⟩)]⟩] "A").map (fun e => e.2.length) = [1, 2]
    ∧ (aggOf ["A", "B"]
        [⟨"A", "B", [("d1", ⟨5, 1, 1⟩), ("d2", ⟨5, 2, 1⟩)]⟩,
         ⟨"A", "B", [("d2", ⟨5, 3, 1⟩)]⟩] "A").overall_average = 5
    ∧ meanQ (((aggOf ["A", "B"]
        [⟨"A", "B", [("d1", ⟨5, 1, 1⟩), ("d2", ⟨5, 2, 1⟩)]⟩,
         ⟨"A", "B", [("d2", ⟨5, 3, 1⟩)]⟩] "A").dimensions).map (fun e => e.2)) = 5 := by
  have h1 : model_dim_lists ["A", "B"]
      [⟨"A", "B", [("d1", ⟨5, 1, 1⟩), ("d2", ⟨5, 2, 1⟩)]⟩,
       ⟨"A", "B", [("d2", ⟨5, 3, 1⟩)]⟩] "A"
      = [("d1", [5]), ("d2", [5, 5])] := rfl
  have hx : ([(5 : ℚ)] : List ℚ) ≠ [] := by simp
  have hy : ([(5 : ℚ), 5] : List ℚ) ≠ [] := by simp
  have hz : ([(5 : ℚ), 5, 5] : List ℚ) ≠ [] := by simp
  have h5 : meanQ [(5 : ℚ)] = 5 := by
    simp only [meanQ, if_neg hx]
    norm_num
  have h55 : meanQ [(5 : ℚ), 5] = 5 := by
    simp only [meanQ, if_neg hy]
    norm_num
  have h555 : meanQ [(5 : ℚ), 5, 5] = 5 := by
    simp only [meanQ, if_neg hz]
    norm_num
  refine ⟨h1, by rw [h1]; rfl, ?_, ?_⟩
  · rw [aggOf_overall _ _ _ (by simp), h1]
    have hd : dimFlat [("d1", [(5 : ℚ)]), ("d2", [5, 5])] = [5, 5, 5] := rfl
    rw [hd, h555]
  · rw [aggOf_dimensions _ _ _ (by simp), h1]
    simp only [List.map_cons, List.map_nil]
    rw [h5, h55, h55]

/-- C9: the cross-pair aggregator is order-independent — folding any
permutation of the pair-result list yields the same per-system
per-dimension aggregate entries, the same overall average, and the same
comparison count. -/
theorem C9_order_independence (models : List String) (prs prs' : List PairResult)
    (hperm : prs.Perm prs') (m : String) (hm : m ∈ models) (d : String) :
    getA (aggOf models prs' m).dimensions d = getA (aggOf models prs m).dimensions d
    ∧ (aggOf models prs' m).overall_average = (aggOf models prs m).overall_average
    ∧ (aggOf models prs' m).num_comparisons
        = (aggOf models prs m).num_comparisons := by
  have hps : (pairScores prs' m d).Perm (pairScores prs m d) :=
    (hperm.symm).flatMap_right _
  refine ⟨?_, ?_, ?_⟩
  · rw [getA_aggOf_dimensions models prs' m hm, getA_aggOf_dimensions models prs m hm]
    by_cases h : pairScores prs m d = []
    · have h' : pairScores prs' m d = [] := by
        have hlen := hps.length_eq
        rw [h] at hlen
        exact List.length_eq_zero.mp (by simpa using hlen)
      rw [if_pos h, if_pos h']
    · have h' : pairScores prs' m d ≠ [] := by
        intro hh
        apply h
        have hlen := hps.length_eq
        rw [hh] at hlen
        exact List.length_eq_zero.mp (by simpa using hlen.symm)
      rw [if_neg h, if_neg h', meanQ_perm _ _ hps]
  · rw [aggOf_overall models prs' m hm, aggOf_overall models prs m hm]
    have h1 := dimFlat_model_dim_lists models prs' m hm
    have h2 := dimFlat_model_dim_lists models prs m hm
    have hall : (allScores prs' m).Perm (allScores prs m) :=
      (hperm.symm).flatMap_right _
    exact meanQ_perm _ _ ((h1.trans hall).trans h2.symm)
  · rw [aggOf_num models prs' m hm, aggOf_num models prs m hm]
    simp only [numContrib]
    rw [hperm.countP_eq, hperm.countP_eq]

/-- Witness for C9: the scenario batch folded with its first two pair
summaries swapped. -/
theorem C9_order_independence_witness :
    (scenarioPairs.Perm
      [⟨"A", "C", [("believability", ⟨6, 6, 10⟩)]⟩,
       ⟨"A", "B", [("believability", ⟨7, 5, 10⟩)]⟩,
       ⟨"B", "C", [("believability", ⟨4, 8, 10⟩)]⟩])
    ∧ ("A" ∈ scenarioModels)
    ∧ getA (aggOf scenarioModels
        [⟨"A", "C", [("believability", ⟨6, 6, 10⟩)]⟩,
         ⟨"A", "B", [("believability", ⟨7, 5, 10⟩)]⟩,
         ⟨"B", "C", [("believability", ⟨4, 8, 10⟩)]⟩] "A").dimensions "believability"
      = getA (aggOf scenarioModels scenarioPairs "A").dimensions "believability" := by
  have hperm : scenarioPairs.Perm
      [⟨"A", "C", [("believability", ⟨6, 6, 10⟩)]⟩,
       ⟨"A", "B", [("believability", ⟨7, 5, 10⟩)]⟩,
       ⟨"B", "C", [("believability", ⟨4, 8, 10⟩)]⟩] := by
    rw [scenarioPairs]
    exact List.Perm.swap _ _ _
  exact ⟨hperm, by simp [scenarioModels],
    (C9_order_independence scenarioModels scenarioPairs _ hperm "A"
      (by simp [scenarioModels]) "believability").1⟩

/-- Counterexample to C2 as stated: with one conversation index and the two
dimensions empathy and continuity both registered, a transport error on the
first cell makes the whole pair run return that error — no later cell of
the pair is evaluated and no cell log survives, instead of only the failing
cell's sub-scores being dropped. -/
theorem C2_counterexample :
    run_evaluation_cells 1 ["empathy", "continuity"] ["empathy", "continuity"]
        (fun _ d => if d = "empathy" then .error "transport error"
                    else .ok (.parsed ⟨some 5, some 6⟩))
      = .error "transport error" := rfl

/-- C2 (amended): a transport error on a single cell propagates out of the
dimension loop and aborts the entire pair evaluation (no cell log of the
pair survives); the batch driver tolerates the failure at pair granularity
only — a failed pair is skipped while every successfully evaluated pair's
result is kept in `pair_results`. -/
theorem C2_pair_granularity :
    (∀ (i : ℕ) (d : String) (rest templates : List String)
        (judge : ℕ → String → Except String ParsedResponse) (acc : List Log)
        (e : String),
        templates.contains d = true → judge i d = .error e →
        eval_dim_cells i (d :: rest) templates judge acc = .error e)
    ∧ (∀ (i : ℕ) (idxs : List ℕ) (dims templates : List String)
        (judge : ℕ → String → Except String ParsedResponse) (acc : List Log)
        (e : String),
        eval_dim_cells i dims templates judge acc = .error e →
        eval_cells (i :: idxs) dims templates judge acc = .error e)
    ∧ (∀ (models : List String)
        (evalPair : String → String → Option (List (String × DimAgg)))
        (q : String × String) (r : List (String × DimAgg)),
        q ∈ combinations2 models → evalPair q.1 q.2 = some r →
        (⟨q.1, q.2, r⟩ : PairResult) ∈ (run_batch models evalPair).pair_results) := by
  refine ⟨?_, ?_, ?_⟩
  · intro i d rest templates judge acc e hc hj
    simp only [eval_dim_cells, if_pos hc, hj]
  · intro i idxs dims templates judge acc e h
    rw [eval_cells, h]
  · intro models evalPair q r hq hr
    show _ ∈ (combinations2 models).filterMap _
    exact List.mem_filterMap.mpr ⟨q, hq, by rw [hr]; rfl⟩

/-- Witness for C2 (amended) at the counterexample's inputs and a
two-model batch whose only pair succeeds. -/
theorem C2_pair_granularity_witness :
    ((["empathy", "continuity"] : List String).contains "empathy" = true)
    ∧ ((fun (_ : ℕ) (d : String) =>
          if d = "empathy" then Except.error "transport error"
          else Except.ok (ParsedResponse.parsed ⟨some 5, some 6⟩)) 0 "empathy"
        = Except.error "transport error")
    ∧ eval_dim_cells 0 ["empathy", "continuity"] ["empathy", "continuity"]
        (fun _ d => if d = "empathy" then .error "transport error"
                    else .ok (.parsed ⟨some 5, some 6⟩)) []
      = .error "transport error"
    ∧ (("A", "B") ∈ combinations2 ["A", "B"])
    ∧ ((fun _ _ => some [("empathy", (⟨7, 6, 1⟩ : DimAgg))]) "A" "B"
        = some [("empathy", (⟨7, 6, 1⟩ : DimAgg))])
    ∧ (⟨"A", "B", [("empathy", ⟨7, 6, 1⟩)]⟩ : PairResult)
        ∈ (run_batch ["A", "B"]
            (fun _ _ => some [("empathy", ⟨7, 6, 1⟩)])).pair_results := by
  refine ⟨rfl, rfl, ?_, by simp [combinations2], rfl, ?_⟩
  · exact C2_pair_granularity.1 0 "empathy" ["continuity"] ["empathy", "continuity"]
      (fun _ d => if d = "empathy" then .error "transport error"
                  else .ok (.parsed ⟨some 5, some 6⟩)) [] "transport error" rfl rfl
  · exact C2_pair_granularity.2.2 ["A", "B"]
      (fun _ _ => some [("empathy", ⟨7, 6, 1⟩)]) ("A", "B")
      [("empathy", ⟨7, 6, 1⟩)] (by simp [combinations2]) rfl

/-- Counterexample to C4 as stated: with a single discovered system the
batch run raises nothing — pair enumeration yields zero pairs, the run
proceeds through aggregation, and the lone system is even listed with zero
comparisons; no `DiscoveryError` exists anywhere in the code. -/
theorem C4_counterexample :
    run_batch ["solo-model"] (fun _ _ => none)
      = ⟨0, [], [("solo-model", ⟨[], 0, 0⟩)]⟩ := rfl

/-- C4 (amended): if fewer than 2 eligible systems are discovered, no error
is raised and the run is not aborted: the pair list is empty, no evaluation
runs, and the batch completes with an aggregate listing each discovered
system with zero comparisons. -/
theorem C4_no_discovery_error (models : List String) (h : models.length < 2)
    (evalPair : String → String → Option (List (String × DimAgg))) :
    (run_batch models evalPair).num_pairs = 0
    ∧ (run_batch models evalPair).pair_results = []
    ∧ ∀ m ∈ models,
        getA (run_batch models evalPair).model_aggregate m = some ⟨[], 0, 0⟩ := by
  have hc : combinations2 models = [] := by
    cases models with
    | nil => rfl
    | cons x xs =>
      cases xs with
      | nil => rfl
      | cons y ys => exact absurd h (by simp)
  refine ⟨?_, ?_, ?_⟩
  · show (combinations2 models).length = 0
    rw [hc]
    rfl
  · show (combinations2 models).filterMap _ = []
    rw [hc]
    rfl
  · intro m hm
    show getA (aggregate_model_scores ((combinations2 models).filterMap _) models) m
      = some ⟨[], 0, 0⟩
    rw [hc]
    rw [show (([] : List (String × String)).filterMap
      (fun q => (evalPair q.1 q.2).map
        (fun res => (⟨q.1, q.2, res⟩ : PairResult)))) = [] from rfl]
    rw [getA_aggregate_model_scores models [] m hm]
    rfl

/-- Witness for C4 (amended) on a one-system inventory. -/
theorem C4_no_discovery_error_witness :
    ((["solo-model"] : List String).length < 2)
    ∧ (run_batch ["solo-model"] (fun _ _ => none)).num_pairs = 0
    ∧ (run_batch ["solo-model"] (fun _ _ => none)).pair_results = [] := by
  have h := C4_no_discovery_error ["solo-model"] (by decide) (fun _ _ => none)
  exact ⟨by decide, h.1, h.2.1⟩

/-- C10 (amended): a system with zero contributing pairs for a dimension is
omitted from that dimension's `model_scores` mapping of the aggregated JSON
document; the CSV summary (and chart), however, substitute a fabricated 0
for the missing dimension via `.get(dim, 0)`. -/
theorem C10_zero_pair_omission (ma : List (String × MAgg)) (dim m : String)
    (h : ∀ e ∈ ma, e.1 = m → getA e.2.dimensions dim = none) :
    (∀ q : ℚ, (m, q) ∉ dimension_model_scores ma dim)
    ∧ ∀ (dims : List String) (agg : MAgg) (i : Fin dims.length),
        getA agg.dimensions (dims.get i) = none →
        (csv_row dims agg).get ⟨i.1, by simp [csv_row]⟩ = 0 := by
  constructor
  · intro q hq
    rcases List.mem_filterMap.mp hq with ⟨e, he, hsome⟩
    rcases Option.map_eq_some.mp hsome with ⟨s, hgs, heq⟩
    have hm1 : e.1 = m := congrArg Prod.fst heq
    rw [h e he hm1] at hgs
    exact Option.noConfusion hgs
  · intro dims agg i hnone
    show (dims.map (fun dim => (getA agg.dimensions dim).getD 0)).get _ = 0
    simp only [List.get_eq_getElem] at hnone ⊢
    rw [List.getElem_map, hnone]
    rfl

/-- Witness for C10 (amended): in a three-system batch whose only pair is
(A, C), system B has zero contributing pairs for believability and is
absent from the believability `model_scores` mapping. -/
theorem C10_zero_pair_omission_witness :
    (∀ e ∈ aggregate_model_scores
        [⟨"A", "C", [("believability", ⟨7, 5, 2⟩)]⟩] ["A", "B", "C"],
      e.1 = "B" → getA e.2.dimensions "believability" = none)
    ∧ ∀ q : ℚ, ("B", q) ∉ dimension_model_scores
        (aggregate_model_scores
          [⟨"A", "C", [("believability", ⟨7, 5, 2⟩)]⟩] ["A", "B", "C"])
        "believability" := by
  have h : ∀ e ∈ aggregate_model_scores
      [⟨"A", "C", [("believability", ⟨7, 5, 2⟩)]⟩] ["A", "B", "C"],
      e.1 = "B" → getA e.2.dimensions "believability" = none := by
    intro e he hb
    have hkeys : e ∈ aggregate_model_scores
        [⟨"A", "C", [("believability", ⟨7, 5, 2⟩)]⟩] ["A", "B", "C"] := he
    fin_cases hkeys <;> simp_all [getA]
  exact ⟨h, (C10_zero_pair_omission _ "believability" "B" h).1⟩

/-- Counterexample to C10 as stated: with the only pair being (A, C),
system B is omitted from the believability `model_scores` mapping as
claimed, but the CSV row written for B renders the missing dimension as a
fabricated 0.00 — a zero does appear in an aggregate output. -/
theorem C10_counterexample :
    keys (dimension_model_scores
        (aggregate_model_scores
          [⟨"A", "C", [("believability", ⟨7, 5, 2⟩)]⟩] ["A", "B", "C"])
        "believability") = ["A", "C"]
    ∧ getA (aggOf ["A", "B", "C"]
        [⟨"A", "C", [("believability", ⟨7, 5, 2⟩)]⟩] "B").dimensions "believability"
      = none
    ∧ csv_row ["believability"]
        (aggOf ["A", "B", "C"] [⟨"A", "C", [("believability", ⟨7, 5, 2⟩)]⟩] "B")
      = [0] := by
  exact ⟨rfl, rfl, rfl⟩

end EmoEval
